import Mathlib

/-!
Verification of the llm-api-proxy worker (src/worker.js) against its
natural-language specification.  The JavaScript source is shallowly embedded:
each JS function that a claim depends on is translated into an executable Lean
definition, and the claims are settled as theorems about those definitions.

Conventions of the embedding:
* JS strings are Lean `String`s (sequences of Unicode scalar values).
* JSON values that the code inspects are modelled by structures carrying
  exactly the fields the code reads; a field the code checks for presence or
  truthiness becomes an `Option`.
* The downstream `writer` is modelled by the list of strings written to it,
  in order, together with a flag recording whether `writer.close()` ran.
* Asynchronous reads are modelled by passing the data that would arrive on
  the wire as explicit lists (chunks of a stream, scripted retry outcomes).
-/

namespace LLMProxy

/-! ### SSE line iterator (`GeminiHandler.sseLineIterator`, worker.js 503-523)

The iterator keeps a string buffer across reads, splits the buffer on the
regex `\r?\n`, keeps the final fragment as the new buffer, and yields every
complete line that still contains a non-whitespace character
(`line.trim()` truthiness); at end of stream the remaining buffer is
yielded under the same condition.  Splitting on `\r?\n` is modelled by a
character-level scanner whose state records the completed lines, the
current fragment (reversed) and whether a `\r` is pending (a `\r` is part
of a delimiter exactly when the next character is `\n`). -/

/-- The whitespace characters removed by `String.prototype.trim`
(ECMAScript WhiteSpace and LineTerminator). -/
def jsWhitespace (c : Char) : Bool :=
  c = ' ' || c = '\t' || c = '\n' || c = '\r' ||
  c.toNat = 0x0b || c.toNat = 0x0c || c.toNat = 0xa0 || c.toNat = 0x1680 ||
  (0x2000 ≤ c.toNat && c.toNat ≤ 0x200a) || c.toNat = 0x2028 ||
  c.toNat = 0x2029 || c.toNat = 0x202f || c.toNat = 0x205f ||
  c.toNat = 0x3000 || c.toNat = 0xfeff

/-- `line.trim()` is truthy iff the line has a non-whitespace character. -/
def lineNonBlank (l : List Char) : Bool := l.any fun c => !jsWhitespace c

/-- Scanner state for splitting on `\r?\n`. -/
structure SplitState where
  done : List (List Char)
  cur : List Char
  pendCR : Bool
deriving Repr, DecidableEq

/-- One scanner step: `\n` (alone or completing a pending `\r`) closes the
current line; a `\r` becomes pending; a pending `\r` not followed by `\n`
is an ordinary character of the current line. -/
def stepCh (s : SplitState) (c : Char) : SplitState :=
  if s.pendCR then
    if c = '\n' then ⟨s.done ++ [s.cur.reverse], [], false⟩
    else if c = '\r' then ⟨s.done, '\r' :: s.cur, true⟩
    else ⟨s.done, c :: '\r' :: s.cur, false⟩
  else
    if c = '\n' then ⟨s.done ++ [s.cur.reverse], [], false⟩
    else if c = '\r' then ⟨s.done, s.cur, true⟩
    else ⟨s.done, c :: s.cur, false⟩

/-- Run the scanner over a character list. -/
def runSplit (s : SplitState) (cs : List Char) : SplitState := cs.foldl stepCh s

/-- The initial scanner state. -/
def initSplit : SplitState := ⟨[], [], false⟩

/-- The unterminated final fragment held by a scanner state (a pending `\r`
at end of input is an ordinary character). -/
def finalFrag (s : SplitState) : List Char :=
  (if s.pendCR then '\r' :: s.cur else s.cur).reverse

/-- `str.split(/\r?\n/)`: the completed lines followed by the final
fragment (which is `[]` when the input ends with a delimiter, matching the
trailing `""` produced by the JS split). -/
def splitLines (cs : List Char) : List (List Char) :=
  (runSplit initSplit cs).done ++ [finalFrag (runSplit initSplit cs)]

/-- The read loop of `sseLineIterator` (worker.js lines 507-522): per chunk,
split `buffer + chunk`, yield the complete non-blank lines, keep the final
fragment (`lines.pop() || ""`) as the buffer; at end of stream yield the
buffer if it is non-blank. -/
def sseLineIteratorAux : List (List Char) → List Char → List (List Char)
  | [], buffer => if lineNonBlank buffer then [buffer] else []
  | ch :: rest, buffer =>
      let ls := splitLines (buffer ++ ch)
      ls.dropLast.filter lineNonBlank ++ sseLineIteratorAux rest (ls.getLast?.getD [])

/-- `GeminiHandler.sseLineIterator` applied to an arbitrary chunking of the
upstream byte stream (chunks as character lists, after UTF-8 decoding). -/
def sseLineIterator (chunks : List (List Char)) : List (List Char) :=
  sseLineIteratorAux chunks []

/-! ### Gemini continuation engine: data model

Model of the JSON shapes read by `GeminiHandler.processStreamAndRetryInternally`
(src/worker.js lines 593-784).  A `parts[*]` entry is read through
`typeof part.text === 'string'` (so `text` is an `Option String`),
`part.thought !== true` (so `thought` is a `Bool` that is `true` exactly when
the JSON field is literally `true`), and `part.functionCall || part.toolCode`
(collapsed into one `Bool`). -/

structure GemPart where
  text : Option String
  thought : Bool
  hasToolCall : Bool
deriving Repr, DecidableEq

/-- Model of `payload.candidates[0]`: the code reads `candidate.content?.parts`
(an optional array) and `candidate.finishReason` (an optional string; the
code's `if (finishReason)` treats the empty string as absent). -/
structure GemCandidate where
  parts : Option (List GemPart)
  finishReason : Option String
deriving Repr, DecidableEq

/-- One line yielded by the SSE iterator, as seen by the inner loop.
`data raw c` models a line that starts with `"data: "`, whose payload parses
as JSON and contains `candidates[0] = c`; `other raw` models every other line
(non-data lines, non-JSON data lines, data lines without a candidate), which
the loop forwards but does not interpret. -/
inductive SseLine where
  | other (raw : String)
  | data (raw : String) (cand : GemCandidate)
deriving Repr, DecidableEq

/-- The raw text of a line (what gets written downstream). -/
def SseLine.raw : SseLine → String
  | .other r => r
  | .data r _ => r

/-- One upstream SSE body: the lines the iterator yields, plus a flag saying
whether reading the stream ends in an exception after those lines (the
`catch` in the inner loop, producing `FETCH_ERROR`). -/
structure SseStream where
  lines : List SseLine
  readError : Bool
deriving Repr, DecidableEq

/-- Mutable state of one attempt of the inner loop: the session-wide
`accumulatedText` plus the per-attempt flags
`hasReceivedFinalAnswerContent` and `hasReceivedToolCalls`. -/
structure AttemptState where
  accumulatedText : String
  hasReceivedFinalAnswerContent : Bool
  hasReceivedToolCalls : Bool
deriving Repr, DecidableEq

/-- Processing of one `parts[*]` entry (worker.js lines 641-656):
a string `text` is appended to `accumulatedText` and, unless
`thought === true`, sets `hasReceivedFinalAnswerContent`; otherwise a
`functionCall`/`toolCode` part sets `hasReceivedToolCalls`. -/
def applyPart (st : AttemptState) (p : GemPart) : AttemptState :=
  match p.text with
  | some t =>
      { st with
        accumulatedText := st.accumulatedText ++ t
        hasReceivedFinalAnswerContent :=
          st.hasReceivedFinalAnswerContent || !p.thought }
  | none =>
      if p.hasToolCall then { st with hasReceivedToolCalls := true } else st

/-- Fold `applyPart` over the `parts` array of a candidate (lines 639-657). -/
def applyCandidateParts (st : AttemptState) (c : GemCandidate) : AttemptState :=
  match c.parts with
  | some ps => ps.foldl applyPart st
  | none => st

/-- Result of interpreting one SSE line inside the loop body. -/
inductive StepResult where
  | next (st : AttemptState)
  | done (st : AttemptState)
  | interrupted (st : AttemptState) (reason : String)
deriving Repr, DecidableEq

/-- Interpretation of one yielded line (worker.js lines 626-686), after the
line has already been written downstream.  Non-data lines and data lines
without a candidate fall through (`continue`); otherwise the parts are folded
into the state and the finish reason, when truthy, is classified:
`STOP` succeeds when substantive output or more than 100 accumulated
characters exist and otherwise interrupts with
`STOP_WITHOUT_SUFFICIENT_CONTENT`; `MAX_TOKENS`/`TOOL_CODE`/`SAFETY`/
`RECITATION` succeed; any other truthy value interrupts with
`FINISH_ABNORMAL`. -/
def processLine (st : AttemptState) (l : SseLine) : StepResult :=
  match l with
  | .other _ => .next st
  | .data _ c =>
      let st := applyCandidateParts st c
      match c.finishReason with
      | none => .next st
      | some fr =>
          if fr = "" then .next st
          else if fr = "STOP" then
            if st.hasReceivedFinalAnswerContent || st.hasReceivedToolCalls then
              .done st
            else if st.accumulatedText.length > 100 then
              .done st
            else
              .interrupted st "STOP_WITHOUT_SUFFICIENT_CONTENT"
          else if fr = "MAX_TOKENS" || fr = "TOOL_CODE" || fr = "SAFETY"
              || fr = "RECITATION" then
            .done st
          else
            .interrupted st "FINISH_ABNORMAL"

/-- Outcome of one attempt of the inner loop.  `interruption = none` models
the `return writer.close()` paths (the attempt succeeded and the downstream
writer was closed); `interruption = some r` models `interruptionReason = r`.
`written` lists the strings written downstream during the attempt, `texts`
the text fragments appended to `accumulatedText`, and `linesProcessed` how
many yielded lines the loop consumed. -/
structure AttemptResult where
  state : AttemptState
  written : List String
  texts : List String
  interruption : Option String
  linesProcessed : Nat
deriving Repr, DecidableEq

/-- The text fragments of a candidate's parts, in order. -/
def candTexts (c : GemCandidate) : List String :=
  match c.parts with
  | some ps => ps.filterMap (·.text)
  | none => []

/-- The text fragments a single line contributes to `accumulatedText`. -/
def lineTexts (l : SseLine) : List String :=
  match l with
  | .other _ => []
  | .data _ c => candTexts c

/-- The state carried by a step result. -/
def StepResult.state : StepResult → AttemptState
  | .next s => s
  | .done s => s
  | .interrupted s _ => s

/-- One attempt of the inner loop (worker.js lines 618-701): each yielded
line is first written downstream followed by a blank line
(`line + "\n\n"`, line 623) and then interpreted; if the iterator is
exhausted without a truthy finish reason the attempt is interrupted with
`DROP_DURING_TOOL_USE`/`DROP`, and a read exception yields `FETCH_ERROR`. -/
def runAttemptAux (st : AttemptState) (ls : List SseLine) (readError : Bool) :
    AttemptResult :=
  match ls with
  | [] =>
      if readError then
        { state := st, written := [], texts := [],
          interruption := some "FETCH_ERROR", linesProcessed := 0 }
      else
        { state := st, written := [], texts := [],
          interruption := some (if st.hasReceivedToolCalls then
            "DROP_DURING_TOOL_USE" else "DROP"),
          linesProcessed := 0 }
  | l :: rest =>
      match processLine st l with
      | .next st1 =>
          let r := runAttemptAux st1 rest readError
          { r with
            written := (l.raw ++ "\n\n") :: r.written
            texts := lineTexts l ++ r.texts
            linesProcessed := r.linesProcessed + 1 }
      | .done st1 =>
          { state := st1, written := [l.raw ++ "\n\n"], texts := lineTexts l,
            interruption := none, linesProcessed := 1 }
      | .interrupted st1 reason =>
          { state := st1, written := [l.raw ++ "\n\n"], texts := lineTexts l,
            interruption := some reason, linesProcessed := 1 }

/-- Run one attempt from a fresh per-attempt flag state, carrying the
session's `accumulatedText` (the flags are declared inside the `while` loop
of the source, lines 613-614, hence reset on every attempt). -/
def runAttempt (acc : String) (s : SseStream) : AttemptResult :=
  runAttemptAux ⟨acc, false, false⟩ s.lines s.readError

/-! ### Language detection (`GeminiHandler.detectLanguage`, worker.js 525-559) -/

/-- Chinese CJK block of the `zh` pattern `[一-龥]`. -/
def isZhChar (c : Char) : Bool := 0x4e00 ≤ c.toNat && c.toNat ≤ 0x9fa5

/-- Hiragana/Katakana blocks of the `ja` pattern `[぀-ゟ゠-ヿ]`. -/
def isJaChar (c : Char) : Bool :=
  (0x3040 ≤ c.toNat && c.toNat ≤ 0x309f) || (0x30a0 ≤ c.toNat && c.toNat ≤ 0x30ff)

/-- Hangul blocks of the `ko` pattern `[가-힯ᄀ-ᇿ]`. -/
def isKoChar (c : Char) : Bool :=
  (0xac00 ≤ c.toNat && c.toNat ≤ 0xd7af) || (0x1100 ≤ c.toNat && c.toNat ≤ 0x11ff)

/-- Arabic block of the `ar` pattern `[؀-ۿ]`. -/
def isArChar (c : Char) : Bool := 0x0600 ≤ c.toNat && c.toNat ≤ 0x06ff

/-- Cyrillic block of the `ru` pattern `[Ѐ-ӿ]`. -/
def isRuChar (c : Char) : Bool := 0x0400 ≤ c.toNat && c.toNat ≤ 0x04ff

/-- Number of characters of `text` matched by a one-character-class global
regex, i.e. `(text.match(pattern) || []).length`. -/
def countMatches (text : String) (p : Char → Bool) : Nat :=
  (text.data.filter p).length

/-- The `patterns` table in source order: zh, ja, ko, ar, ru. -/
def langPatterns : List (String × (Char → Bool)) :=
  [("zh", isZhChar), ("ja", isJaChar), ("ko", isKoChar),
   ("ar", isArChar), ("ru", isRuChar)]

/-- The running-maximum scan of worker.js lines 536-546: starting from
`(detectedLang, maxCount) = ("en", 0)`, each `(lang, count)` entry replaces
the best pair exactly when `count > maxCount` (strict, so earlier languages
win ties). -/
def jsMaxScan : List (String × Nat) → String × Nat → String × Nat
  | [], best => best
  | (lang, c) :: rest, best =>
      jsMaxScan rest (if best.2 < c then (lang, c) else best)

/-- Case canonicalisation used to model the `/i` regex flag on the diacritic
character classes: maps the upper-case counterpart of every character
occurring in those classes to its lower-case form and leaves everything else
unchanged (sufficient because the classes contain only lower-case letters
and the two case-less marks `¿ ¡`). -/
def accentLower (c : Char) : Char :=
  let n := c.toNat
  if 0x41 ≤ n && n ≤ 0x5a then Char.ofNat (n + 0x20)
  else if (0xc0 ≤ n && n ≤ 0xde) && n ≠ 0xd7 then Char.ofNat (n + 0x20)
  else if n ∈ [0x100, 0x112, 0x116, 0x118, 0x12a, 0x12e, 0x14c, 0x16a, 0x152]
    then Char.ofNat (n + 1)
  else if n = 0x143 then Char.ofNat 0x144
  else if n = 0x178 then Char.ofNat 0xff
  else if n = 0x1e9e then Char.ofNat 0xdf
  else c

/-- Case-insensitive test of a character class against a text:
`new RegExp(...).test(text)` with the `/i` flag. -/
def testAnyChar (set : List Char) (text : String) : Bool :=
  text.data.any (fun c => set.contains (accentLower c))

/-- The gate character class of worker.js line 552. -/
def outerDiacriticSet : List Char :=
  ['à','â','ä','æ','ã','å','ā','è','é','ê','ë','ē','ė','ę','î','ï','í','ī',
   'į','ì','ô','ö','ò','ó','œ','ø','ō','õ','û','ü','ù','ú','ū','ÿ','ñ','ń','ß']

/-- The French character class of worker.js line 553. -/
def frDiacriticSet : List Char :=
  ['à','â','æ','ç','è','é','ê','ë','î','ï','ô','œ','ù','û','ü','ÿ']

/-- The German character class of worker.js line 554. -/
def deDiacriticSet : List Char := ['ä','ö','ü','ß']

/-- The Spanish character class of worker.js line 555. -/
def esDiacriticSet : List Char := ['á','é','í','ó','ú','ñ','¿','¡']

/-- The diacritic fallback of worker.js lines 552-558: behind the gate
class, the first of the fr/de/es classes that matches wins; with no match
(of the gate or of all three inner classes) the result is `en`. -/
def diacriticScan (text : String) : String :=
  if testAnyChar outerDiacriticSet text then
    if testAnyChar frDiacriticSet text then "fr"
    else if testAnyChar deDiacriticSet text then "de"
    else if testAnyChar esDiacriticSet text then "es"
    else "en"
  else "en"

/-- `GeminiHandler.detectLanguage` (worker.js lines 525-559).  Texts shorter
than 10 characters return `en` immediately (`!text || text.length < 10`; the
empty string is subsumed by the length test).  The running-maximum scan over
the five block counts feeds the 10% threshold `maxCount > text.length * 0.1`,
rendered exactly as `10 * maxCount > text.length` (for natural `maxCount` and
`text.length` the IEEE-754 product `text.length * 0.1` never rounds below
`text.length / 10`, so the float comparison agrees with the rational one).
Below the threshold the diacritic fallback runs. -/
def detectLanguage (text : String) : String :=
  if text.length < 10 then "en"
  else
    let best := jsMaxScan (langPatterns.map fun p => (p.1, countMatches text p.2))
      ("en", 0)
    if text.length < 10 * best.2 then best.1
    else diacriticScan text

/-! ### Continuation body construction
(`GeminiHandler.buildRetryRequestBody`, worker.js 561-591) -/

/-- A `{text: ...}` part of a conversation message. -/
structure GemMsgPart where
  text : String
deriving Repr, DecidableEq

/-- One element of the `contents` array: the code reads only its `role`
(a missing role is modelled as `""`, which never equals `"user"`). -/
structure GemMessage where
  role : String
  msgParts : List GemMsgPart
deriving Repr, DecidableEq

/-- The client's JSON request body: the `contents` array (optional, the code
replaces a falsy value by `[]`) plus all remaining fields, opaque to the
code and modelled by `extra`.  `JSON.parse(JSON.stringify(x))` is the
identity on such values, so the deep copy is modelled as the value itself;
mutation of the original is impossible in the pure embedding. -/
structure GemBody where
  contents : Option (List GemMessage)
  extra : String
deriving Repr, DecidableEq

/-- `Array.prototype.lastIndexOf`, as `none` (for `-1`) or the last index. -/
def jsLastIndexOf : List String → String → Nat → Option Nat
  | [], _, _ => none
  | a :: rest, x, i =>
      match jsLastIndexOf rest x (i + 1) with
      | some j => some j
      | none => if a = x then some i else none

/-- The retry-relevant fields of `GEMINI_CONFIG` (worker.js lines 268-285).
`retry_prompts` is the language-to-prompt table as an association list. -/
structure GeminiConfig where
  max_consecutive_retries : Nat
  max_network_retries : Nat
  retry_prompts : List (String × String)
deriving Repr, DecidableEq

/-- `GEMINI_CONFIG` defaults: `max_consecutive_retries: 5`,
`max_network_retries: 3`, and the built-in prompt table. -/
def geminiConfigDefault : GeminiConfig where
  max_consecutive_retries := 5
  max_network_retries := 3
  retry_prompts :=
    [("en", "Continue exactly where you left off, providing the final answer without repeating the previous thinking steps."),
     ("zh", "请从刚才中断的地方继续，直接提供最终答案，不要重复之前的思考步骤。"),
     ("ja", "中断したところから続けて、以前の思考ステップを繰り返せずに最終的な答えを提供してください。"),
     ("ko", "중단된 부분부터 계속하여 이전 사고 단계를 반복하지 말고 최종 답변을 제공하세요。"),
     ("es", "Continúa exactamente donde lo dejaste, proporcionando la respuesta final sin repetir los pasos de pensamiento anteriores."),
     ("fr", "Continuez exactement où vous vous êtes arrêté, en fournissant la réponse finale sans répéter les étapes de réflexion précédentes."),
     ("de", "Fahren Sie genau dort fort, wo Sie aufgehört haben, und geben Sie die endgültige Antwort, ohne die vorherigen Denkschritte zu wiederholen."),
     ("default", "Continue from where you stopped. Provide the final answer directly.")]

/-- `this.config.retry_prompts[detectedLang] || this.config.retry_prompts['default']`:
a missing (or falsy) entry falls back to the `default` entry. -/
def lookupRetryPrompt (cfg : GeminiConfig) (lang : String) : String :=
  match cfg.retry_prompts.lookup lang with
  | some p => if p = "" then (cfg.retry_prompts.lookup "default").getD "" else p
  | none => (cfg.retry_prompts.lookup "default").getD ""

/-- `GeminiHandler.buildRetryRequestBody` (worker.js lines 561-591): deep
copy the body, default `contents` to `[]`, pick the retry prompt for the
detected language of the accumulated text, and splice
`[{role: "model", parts: [{text: accumulatedText}]},
  {role: "user", parts: [{text: retryPrompt}]}]`
in at `lastUserIndex + 1` (`Array.prototype.splice` with delete count 0
inserts before the element currently at that position, i.e. the result is
`take (i+1) ++ history ++ drop (i+1)`), or push both at the end when no
message has role `user`. -/
def buildRetryRequestBody (cfg : GeminiConfig) (originalBody : GemBody)
    (accumulatedText : String) : GemBody :=
  let contents := originalBody.contents.getD []
  let retryPrompt := lookupRetryPrompt cfg (detectLanguage accumulatedText)
  let history : List GemMessage :=
    [⟨"model", [⟨accumulatedText⟩]⟩, ⟨"user", [⟨retryPrompt⟩]⟩]
  match jsLastIndexOf (contents.map (·.role)) "user" 0 with
  | some i =>
      { originalBody with
        contents := some (contents.take (i + 1) ++ history ++ contents.drop (i + 1)) }
  | none => { originalBody with contents := some (contents ++ history) }

/-! ### Transport-failure classification
(`SocketProxy.shouldFallbackToFetch`, worker.js 1500-1513, and the fallback
decision in `SocketProxy.connectHttp`, line 1448) -/

/-- Substring test `hay.includes(needle)` on character lists. -/
def containsSeg (needle : List Char) : List Char → Bool
  | [] => needle.isPrefixOf []
  | c :: t => needle.isPrefixOf (c :: t) || containsSeg needle t

/-- The `networkErrorKeywords` list of worker.js lines 1505-1510, in source
order. -/
def networkErrorKeywords : List String :=
  ["network", "connection", "connect", "socket", "tcp", "timeout",
   "timed out", "refused", "reset", "aborted", "closed", "lost",
   "unreachable", "econnrefused", "econnreset", "etimedout",
   "enetunreach", "ehostunreach", "epipe", "stream"]

/-- `SocketProxy.shouldFallbackToFetch` (worker.js lines 1500-1513): a
missing error or falsy message is ineligible; otherwise the lower-cased
message is tested for each keyword.  `toLowerCase` is modelled by the
character-wise `Char.toLower`, which agrees with JS on every character
relevant to the ASCII keywords. -/
def shouldFallbackToFetch (errMessage : Option String) : Bool :=
  match errMessage with
  | none => false
  | some m =>
      if m = "" then false
      else networkErrorKeywords.any fun k =>
        containsSeg k.data (m.data.map Char.toLower)

/-- The fallback decision of `SocketProxy.connectHttp` (line 1448):
`this.config.AGGRESSIVE_FALLBACK || this.shouldFallbackToFetch(error)`. -/
def socketFallbackDecision (aggressiveFallback : Bool)
    (errMessage : Option String) : Bool :=
  aggressiveFallback || shouldFallbackToFetch errMessage

/-! ### WebSocket frame packing (`BaseProxy._packFrame`, worker.js 1172-1198) -/

/-- The masking loop of worker.js lines 1193-1196:
`maskedPayload[i] = payload[i] ^ mask[i % 4]`. -/
def maskBytes (mask : List Nat) (i : Nat) : List Nat → List Nat
  | [] => []
  | b :: rest => (b ^^^ mask.getD (i % 4) 0) :: maskBytes mask (i + 1) rest

/-- `BaseProxy._packFrame`: bytes as naturals below 256, the random 4-byte
mask passed as a parameter (`crypto.getRandomValues`), the thrown
`"Payload too large"` as `none`.  The header is two bytes for payload
lengths below 126 and four bytes (marker 126 plus big-endian 16-bit length)
below 65536; larger payloads are rejected. -/
def packFrame (opcode : Nat) (payload : List Nat) (mask : List Nat) :
    Option (List Nat) :=
  let finAndOp := 0x80 ||| opcode
  let len := payload.length
  let maskedPayload := maskBytes mask 0 payload
  if len < 126 then
    some ([finAndOp, 0x80 ||| len] ++ mask ++ maskedPayload)
  else if len < 65536 then
    some ([finAndOp, 0x80 ||| 126, (len >>> 8) &&& 0xff, len &&& 0xff]
      ++ mask ++ maskedPayload)
  else
    none

/-! ### Raw-socket response body (`BaseProxy.parseResponse`, worker.js 991-1044) -/

/-- The read loop of the non-chunked branch (worker.js lines 1016-1023):
starting from `received = data.length`, socket reads are enqueued while
`received < contentLength` holds before the read; a closed socket (`done`)
breaks out.  `wire` lists the reads the socket would deliver. -/
def readBody (received contentLength : Nat) : List (List Nat) → List (List Nat)
  | [] => []
  | v :: rest =>
      if received < contentLength then
        v :: readBody (received + v.length) contentLength rest
      else []

/-- `parseInt(headers.get("content-length") || "0", 10)` (line 1003): a
missing header is replaced by `"0"` before parsing. -/
def contentLengthValue (clHeader : Option Nat) : Nat := clHeader.getD 0

/-- The body bytes produced by `parseResponse` when `transfer-encoding` does
not contain `chunked` (worker.js lines 1015-1024): the preamble residue
`data` (the bytes already buffered past the `CRLF CRLF`) followed by the
socket reads consumed by `readBody`. -/
def parseResponseBodyNoChunk (clHeader : Option Nat) (data : List Nat)
    (wire : List (List Nat)) : List Nat :=
  data ++ (readBody data.length (contentLengthValue clHeader) wire).flatten

/-! ### Request routing (`SpectreProxy.handleRequest`, worker.js 2136-2244) -/

/-- Split a pathname at `/` (JS `String.prototype.split`). -/
def splitOnSlashAux : List Char → List Char → List (List Char)
  | [], cur => [cur.reverse]
  | '/' :: rest, cur => cur.reverse :: splitOnSlashAux rest []
  | c :: rest, cur => splitOnSlashAux rest (c :: cur)

/-- `url.pathname.split("/").filter(Boolean)` (worker.js line 2141): the
non-empty path segments in order. -/
def splitPathParts (path : String) : List String :=
  ((splitOnSlashAux path.data []).filter (· ≠ [])).map fun l => ⟨l⟩

/-- The keys of `API_MAPPING` (worker.js lines 79-265), in source order. -/
def apiMappingKeys : List String :=
  ["/discord", "/telegram", "/openai", "/claude", "/gemini", "/cerebras",
   "/chutes", "/cohere", "/deepinfra", "/fireworks", "/friendli", "/github",
   "/groq", "/huggingface", "/meta", "/novita", "/openrouter", "/poe",
   "/portkey", "/sambanova", "/targon", "/together", "/xai"]

/-- The routing-relevant configuration fields (`ConfigManager`). -/
structure GatewayConfig where
  AUTH_TOKEN : String
  PRESET_AUTH_ENABLED : Bool
deriving Repr, DecidableEq

/-- Routing outcome of `SpectreProxy.handleRequest`, abstracting everything
after route selection (upstream dispatch, page rendering). -/
inductive RouteOutcome where
  | indexPage
  | testProxy
  | badRequestTokenOnly
  | presetUnauthorized
  | presetRoute (routeKey : String) (authenticated : Bool)
  | genericProxy (firstSegment : String) (rest : List String)
  | unauthorized
deriving Repr, DecidableEq

/-- The route dispatch of `SpectreProxy.handleRequest`
(worker.js lines 2140-2237): empty path → index page; first segment `test`
→ public test proxy; a leading segment equal to `AUTH_TOKEN` is consumed
and authenticates; an empty remainder → 400 (`目标 URL 缺失`); a preset key
needs authentication only when `PRESET_AUTH_ENABLED`; a non-preset
remainder is a generic proxy when authenticated and otherwise → 401. -/
def handleRequestRoute (cfg : GatewayConfig) (path : String) : RouteOutcome :=
  let parts := splitPathParts path
  match parts with
  | [] => .indexPage
  | p0 :: _ =>
      if p0 = "test" then .testProxy
      else
        let isAuthenticated := p0 = cfg.AUTH_TOKEN
        let effectiveParts := if p0 = cfg.AUTH_TOKEN then parts.tail else parts
        match effectiveParts with
        | [] => .badRequestTokenOnly
        | e0 :: rest =>
            if apiMappingKeys.contains ("/" ++ e0) then
              if cfg.PRESET_AUTH_ENABLED && !isAuthenticated then
                .presetUnauthorized
              else .presetRoute ("/" ++ e0) isAuthenticated
            else if isAuthenticated then .genericProxy e0 rest
            else .unauthorized

/-- The HTTP status the gateway itself answers with on the rejection
branches (`ErrorResponse.badRequest` → 400, `ErrorResponse.unauthorized`
→ 401); `none` for outcomes whose status depends on the upstream. -/
def routeStatus : RouteOutcome → Option Nat
  | .badRequestTokenOnly => some 400
  | .presetUnauthorized => some 401
  | .unauthorized => some 401
  | _ => none

/-- The synthesised terminal SSE error event written when the retry limit is
exhausted (worker.js lines 712-720): `event: error` with a
`JSON.stringify`-serialised payload whose fields appear in the object-literal
order `code`, `status`, `message`. -/
def sse504Event (cfg : GeminiConfig) (interruptionReason : String) : String :=
  "event: error\ndata: \x7b\"error\":\x7b\"code\":504,\"status\":\"DEADLINE_EXCEEDED\","
    ++ "\"message\":\"Proxy retry limit (" ++ toString cfg.max_consecutive_retries
    ++ ") exceeded. Last interruption: " ++ interruptionReason ++ ".\"\x7d\x7d\n\n"

/-- The synthesised SSE error event written when the network-retry limit is
exhausted (worker.js lines 767-775). -/
def sse502Event (errMsg : String) : String :=
  "event: error\ndata: \x7b\"error\":\x7b\"code\":502,\"status\":\"BAD_GATEWAY\","
    ++ "\"message\":\"Network error during retry: " ++ errMsg
    ++ ". Max network retries exceeded.\"\x7d\x7d\n\n"

/-- The SSE error event relayed from a non-retryable upstream response
(`writeSSEErrorFromUpstream`, worker.js lines 488-501); `errText` stands for
the standardised upstream error body. -/
def sseUpstreamErrorEvent (errText : String) : String :=
  "event: error\ndata: " ++ errText ++ "\n\n"

/-- Scripted outcome of one retry dispatch through
`this.proxy.connectHttp` (worker.js lines 738-755):
`ok` is a 2xx response with a fresh body stream, `nonRetryable errText` a
response whose status is in `NON_RETRYABLE_STATUSES` (its standardised error
body being `errText`), and `failure msg` either a thrown network error or a
non-ok/bodyless response (both land in the `catch` at line 761). -/
inductive RetryOutcome where
  | ok (s : SseStream)
  | nonRetryable (errText : String)
  | failure (msg : String)
deriving Repr, DecidableEq

/-- Record of one inner-loop attempt: the value of `consecutiveRetryCount`
when the attempt started, the interruption it ended with (`none` = success),
and the text fragments it appended to `accumulatedText`. -/
structure AttemptRecord where
  startCount : Nat
  interruption : Option String
  texts : List String
deriving Repr, DecidableEq

/-- Observable result of a whole session of
`processStreamAndRetryInternally`: everything written downstream, whether the
writer was closed, the per-attempt trace, and the final `accumulatedText`. -/
structure SessionResult where
  written : List String
  closed : Bool
  attempts : List AttemptRecord
  finalText : String
deriving Repr, DecidableEq

/-- The `while (true)` loop of `processStreamAndRetryInternally`
(worker.js lines 608-783).  Parameters mirror the mutable locals:
`stream` is the current upstream body, `count` is `consecutiveRetryCount`,
`netRetry` is `this.networkRetryCount`, `acc` is `accumulatedText`.
`retries` scripts the successive results of the retry dispatch; an exhausted
script behaves like a thrown network error with an empty message.

After an interrupted attempt: when `count` has reached
`max_consecutive_retries` the loop writes the synthesised 504 event and
closes (lines 710-722); otherwise `count` is incremented and the retry
dispatched — a non-retryable status writes the upstream error event and
closes (lines 747-751), a success installs the new reader and resets
`networkRetryCount` (lines 757-759), and a failure increments
`networkRetryCount`, terminating with the 502 event once it reaches
`max_network_retries` (lines 761-781).  After a failure below the limit the
loop re-enters with the already-cancelled reader, whose reads all report
end-of-stream, i.e. an empty `SseStream`. -/
def sessionLoop (cfg : GeminiConfig) (stream : SseStream) (count netRetry : Nat)
    (acc : String) (retries : List RetryOutcome) : SessionResult :=
  let r := runAttempt acc stream
  let acc1 := r.state.accumulatedText
  match r.interruption with
  | none =>
      { written := r.written, closed := true,
        attempts := [⟨count, none, r.texts⟩], finalText := acc1 }
  | some reason =>
      if _hc : cfg.max_consecutive_retries ≤ count then
        { written := r.written ++ [sse504Event cfg reason], closed := true,
          attempts := [⟨count, some reason, r.texts⟩], finalText := acc1 }
      else
        match retries with
        | .ok s1 :: rest =>
            let tail := sessionLoop cfg s1 (count + 1) 0 acc1 rest
            { written := r.written ++ tail.written, closed := tail.closed,
              attempts := ⟨count, some reason, r.texts⟩ :: tail.attempts,
              finalText := tail.finalText }
        | .nonRetryable errText :: _ =>
            { written := r.written ++ [sseUpstreamErrorEvent errText],
              closed := true,
              attempts := [⟨count, some reason, r.texts⟩], finalText := acc1 }
        | .failure msg :: rest =>
            if cfg.max_network_retries ≤ netRetry + 1 then
              { written := r.written ++ [sse502Event msg], closed := true,
                attempts := [⟨count, some reason, r.texts⟩],
                finalText := acc1 }
            else
              let tail := sessionLoop cfg ⟨[], false⟩ (count + 1) (netRetry + 1)
                acc1 rest
              { written := r.written ++ tail.written, closed := tail.closed,
                attempts := ⟨count, some reason, r.texts⟩ :: tail.attempts,
                finalText := tail.finalText }
        | [] =>
            if cfg.max_network_retries ≤ netRetry + 1 then
              { written := r.written ++ [sse502Event ""], closed := true,
                attempts := [⟨count, some reason, r.texts⟩],
                finalText := acc1 }
            else
              let tail := sessionLoop cfg ⟨[], false⟩ (count + 1) (netRetry + 1)
                acc1 []
              { written := r.written ++ tail.written, closed := tail.closed,
                attempts := ⟨count, some reason, r.texts⟩ :: tail.attempts,
                finalText := tail.finalText }
termination_by retries.length + (cfg.max_consecutive_retries + 1 - count)
decreasing_by
  · simp only [List.length_cons]; omega
  · simp only [List.length_cons]; omega
  · omega

/-- Entry point of the stream processor: `accumulatedText = ""`,
`consecutiveRetryCount = 0`, `this.networkRetryCount = 0`
(worker.js lines 594-595 and 398). -/
def processStreamAndRetryInternally (cfg : GeminiConfig) (initial : SseStream)
    (retries : List RetryOutcome) : SessionResult :=
  sessionLoop cfg initial 0 0 "" retries

/-! ## Theorems -/

/-- C9: a request whose first non-empty path segment is neither `test` nor a
preset route id nor the configured `AUTH_TOKEN` is answered with status 401,
and a request whose path consists of exactly the `AUTH_TOKEN` (which, being a
dedicated route, is assumed distinct from the public `test` segment) with no
target after it is answered with status 400. -/
theorem routing_auth_statuses (cfg : GatewayConfig) (path : String)
    (p0 : String) (rest : List String) :
    (splitPathParts path = p0 :: rest → p0 ≠ "test" →
      ("/" ++ p0) ∉ apiMappingKeys → p0 ≠ cfg.AUTH_TOKEN →
      routeStatus (handleRequestRoute cfg path) = some 401) ∧
    (splitPathParts path = [cfg.AUTH_TOKEN] → cfg.AUTH_TOKEN ≠ "test" →
      routeStatus (handleRequestRoute cfg path) = some 400) := by
  constructor
  · intro hsplit htest hpreset htok
    simp [handleRequestRoute, hsplit, htest, htok, hpreset, routeStatus]
  · intro hsplit htest
    simp [handleRequestRoute, hsplit, htest, routeStatus]

/-- Closed witness for `routing_auth_statuses`: with token `tok`, the path
`/foo/bar` is rejected with 401 and the bare token path `/tok` with 400. -/
theorem routing_auth_statuses_witness :
    routeStatus (handleRequestRoute ⟨"tok", false⟩ "/foo/bar") = some 401 ∧
    routeStatus (handleRequestRoute ⟨"tok", false⟩ "/tok") = some 400 :=
  ⟨(routing_auth_statuses ⟨"tok", false⟩ "/foo/bar" "foo" ["bar"]).1
      (by decide) (by decide) (by decide) (by decide),
    (routing_auth_statuses ⟨"tok", false⟩ "/tok" "tok" []).2
      (by decide) (by decide)⟩

set_option maxRecDepth 8000 in
/-- C7 counterexample: packing a 126-byte payload emits a 4-byte header
(two-byte extended length), so the frame has 134 bytes and not the 132 the
claimed one-byte length form would give. -/
theorem packFrame_len126_counterexample :
    (packFrame 1 (List.replicate 126 0) [0, 0, 0, 0]).map List.length =
      some 134 ∧ (134 : Nat) ≠ 126 + 4 + 2 := by
  constructor
  · rfl
  · decide

/-- C7 (amended): packing uses the one-byte length form exactly for payloads
of length at most 125 (in particular for 125), the two-byte extended form for
lengths 126 to 65535 (in particular for 126, 127 and 65535), and rejects
payloads of length 65536 or more. -/
theorem maskBytes_length (mask : List Nat) (i : Nat) (payload : List Nat) :
    (maskBytes mask i payload).length = payload.length := by
  induction payload generalizing i with
  | nil => rfl
  | cons b rest ih => simp [maskBytes, ih]

theorem packFrame_length_forms (opcode : Nat) (payload mask : List Nat) :
    (payload.length ≤ 125 →
      (packFrame opcode payload mask).map List.length =
        some (payload.length + mask.length + 2)) ∧
    (126 ≤ payload.length → payload.length ≤ 65535 →
      (packFrame opcode payload mask).map List.length =
        some (payload.length + mask.length + 4)) ∧
    (65536 ≤ payload.length → packFrame opcode payload mask = none) := by
  refine ⟨fun h1 => ?_, fun h2 h3 => ?_, fun h4 => ?_⟩
  · rw [packFrame]
    simp only [if_pos (by omega : payload.length < 126)]
    simp [maskBytes_length]
    omega
  · rw [packFrame]
    simp only [if_neg (by omega : ¬payload.length < 126),
      if_pos (by omega : payload.length < 65536)]
    simp [maskBytes_length]
    omega
  · rw [packFrame]
    simp only [if_neg (by omega : ¬payload.length < 126),
      if_neg (by omega : ¬payload.length < 65536)]

/-- Closed witness for `packFrame_length_forms` at payload lengths 125,
126, 65535 and 65536. -/
theorem packFrame_length_forms_witness :
    (packFrame 1 (List.replicate 125 0) [0, 0, 0, 0]).map List.length =
      some (125 + 4 + 2) ∧
    (packFrame 1 (List.replicate 126 0) [0, 0, 0, 0]).map List.length =
      some (126 + 4 + 4) ∧
    (packFrame 1 (List.replicate 65535 0) [0, 0, 0, 0]).map List.length =
      some (65535 + 4 + 4) ∧
    packFrame 1 (List.replicate 65536 0) [0, 0, 0, 0] = none := by
  refine ⟨?_, ?_, ?_, ?_⟩
  · have := (packFrame_length_forms 1 (List.replicate 125 0) [0, 0, 0, 0]).1
      (by rw [List.length_replicate])
    rw [List.length_replicate] at this
    norm_num at this ⊢
    exact this
  · have := (packFrame_length_forms 1 (List.replicate 126 0) [0, 0, 0, 0]).2.1
      (by rw [List.length_replicate]) (by rw [List.length_replicate]; omega)
    rw [List.length_replicate] at this
    norm_num at this ⊢
    exact this
  · have := (packFrame_length_forms 1 (List.replicate 65535 0) [0, 0, 0, 0]).2.1
      (by rw [List.length_replicate]; omega) (by rw [List.length_replicate])
    rw [List.length_replicate] at this
    norm_num at this ⊢
    exact this
  · exact (packFrame_length_forms 1 (List.replicate 65536 0) [0, 0, 0, 0]).2.2
      (by rw [List.length_replicate])

/-- C6: the code contradicts the specified consume-to-EOF behaviour.  With
no `Transfer-Encoding: chunked` and no `Content-Length` header the parsed
content length defaults to `0`, so the response body consists of exactly the
preamble residue: not one further byte is read from the socket, even when
bytes (here a single byte `65`) are still arriving before EOF. -/
theorem parseResponse_missing_length_truncates :
    (∀ (data : List Nat) (wire : List (List Nat)),
      parseResponseBodyNoChunk none data wire = data) ∧
    parseResponseBodyNoChunk none [] [[65]] = [] ∧
    ([] : List Nat) ≠ [65] := by
  refine ⟨fun data wire => ?_, by decide, by decide⟩
  cases wire <;>
    simp [parseResponseBodyNoChunk, contentLengthValue, readBody]

/-- C5 counterexample: the raw-socket failure message `etimedout` triggers
the fallback in the code (even with `AGGRESSIVE_FALLBACK` off), yet it
contains none of the fifteen substrings enumerated by the claim. -/
theorem fallback_etimedout_counterexample :
    socketFallbackDecision false (some "etimedout") = true ∧
    (["network", "connection", "connect", "socket", "tcp", "timeout",
      "timed out", "refused", "reset", "aborted", "closed", "lost",
      "unreachable", "epipe", "stream"].all
      fun k => !containsSeg k.data "etimedout".data) = true := by
  constructor
  · decide
  · decide

/-- Helper: `List.isPrefixOf` as an existential decomposition. -/
theorem isPrefixOf_iff_exists_append (n h : List Char) :
    n.isPrefixOf h = true ↔ ∃ t, h = n ++ t := by
  rw [List.isPrefixOf_iff_prefix]
  constructor
  · rintro ⟨t, ht⟩
    exact ⟨t, ht.symm⟩
  · rintro ⟨t, ht⟩
    exact ⟨t, ht.symm⟩

/-- Helper: the substring test agrees with the decomposition of the haystack
around the needle. -/
theorem containsSeg_iff (needle hay : List Char) :
    containsSeg needle hay = true ↔ ∃ pre post, hay = pre ++ needle ++ post := by
  induction hay with
  | nil =>
      rw [show containsSeg needle [] = needle.isPrefixOf [] from rfl]
      simp only [isPrefixOf_iff_exists_append]
      constructor
      · rintro ⟨t, ht⟩
        exact ⟨[], t, ht⟩
      · rintro ⟨pre, post, hp⟩
        rcases List.append_eq_nil.mp hp.symm with ⟨h1, h2⟩
        rcases List.append_eq_nil.mp h1 with ⟨h3, h4⟩
        exact ⟨[], by rw [h4]; rfl⟩
  | cons c t ih =>
      rw [show containsSeg needle (c :: t) =
        (needle.isPrefixOf (c :: t) || containsSeg needle t) from rfl]
      simp only [Bool.or_eq_true, isPrefixOf_iff_exists_append, ih]
      constructor
      · rintro (⟨u, hu⟩ | ⟨pre, post, hp⟩)
        · exact ⟨[], u, by simpa using hu⟩
        · exact ⟨c :: pre, post, by simp [hp]⟩
      · rintro ⟨pre, post, hp⟩
        cases pre with
        | nil => exact Or.inl ⟨post, by simpa using hp⟩
        | cons d pre =>
            right
            refine ⟨pre, post, ?_⟩
            have := hp
            simp only [List.cons_append] at this
            exact (List.cons.injEq .. ▸ this).2

/-- C5 (amended): with `AGGRESSIVE_FALLBACK` disabled, the raw-socket
failure falls back to the fetch transport iff the lower-cased error message
contains one of the twenty keywords of `networkErrorKeywords` (the fifteen
substrings of the claim plus `econnrefused`, `econnreset`, `etimedout`,
`enetunreach`, `ehostunreach`); with `AGGRESSIVE_FALLBACK` enabled (the
default configuration) every failure falls back. -/
theorem fallback_iff_keyword :
    (∀ m : String, socketFallbackDecision false (some m) = true ↔
      m ≠ "" ∧ ∃ k ∈ networkErrorKeywords, ∃ pre post,
        m.data.map Char.toLower = pre ++ k.data ++ post) ∧
    (∀ e : Option String, socketFallbackDecision true e = true) := by
  constructor
  · intro m
    rw [socketFallbackDecision, Bool.false_or, shouldFallbackToFetch]
    by_cases hm : m = ""
    · simp [hm]
    · rw [if_neg hm, List.any_eq_true]
      simp only [ne_eq, hm, not_false_eq_true, true_and, ← containsSeg_iff]
  · intro e
    simp [socketFallbackDecision]

/-- The two messages spliced into `contents` by the continuation body
construction (worker.js lines 578-581): a model turn carrying the
accumulated text followed by a user turn carrying the retry prompt for the
detected language. -/
def retryHistory (cfg : GeminiConfig) (accumulatedText : String) :
    List GemMessage :=
  [⟨"model", [⟨accumulatedText⟩]⟩,
   ⟨"user", [⟨lookupRetryPrompt cfg (detectLanguage accumulatedText)⟩]⟩]

/-- Helper: `lastIndexOf` misses on a list without the key. -/
theorem jsLastIndexOf_none (x : String) :
    ∀ (l : List String) (i : Nat), (∀ a ∈ l, a ≠ x) → jsLastIndexOf l x i = none := by
  intro l
  induction l with
  | nil => intro i _; rfl
  | cons a rest ih =>
      intro i h
      rw [jsLastIndexOf, ih (i + 1) fun b hb => h b (List.mem_cons_of_mem a hb)]
      simp [h a (List.mem_cons_self a rest)]

/-- Helper: `lastIndexOf` finds the last occurrence of the key. -/
theorem jsLastIndexOf_last (x : String) :
    ∀ (l₁ l₂ : List String) (i : Nat), (∀ a ∈ l₂, a ≠ x) →
      jsLastIndexOf (l₁ ++ x :: l₂) x i = some (i + l₁.length) := by
  intro l₁
  induction l₁ with
  | nil =>
      intro l₂ i h
      rw [List.nil_append, jsLastIndexOf, jsLastIndexOf_none x l₂ (i + 1) h]
      simp
  | cons a rest ih =>
      intro l₂ i h
      rw [List.cons_append, jsLastIndexOf, ih l₂ (i + 1) h]
      simp
      omega

/-- C3: for every original body and accumulated text, the continuation body
equals the original body with exactly the two messages of `retryHistory`
(model turn with the accumulated text, then user turn with the retry prompt)
inserted immediately after the last element of `contents` whose role is
`user`, or appended at the end when no such element exists; all other fields
are those of the original.  Non-mutation of the original is inherent in the
pure embedding: the deep copy `JSON.parse(JSON.stringify(originalBody))` is
the identity on JSON values and the construction returns a new value. -/
theorem buildRetryRequestBody_spec (cfg : GeminiConfig) (b : GemBody)
    (acc : String) :
    (∀ l₁ u l₂, b.contents = some (l₁ ++ u :: l₂) → u.role = "user" →
      (∀ m ∈ l₂, m.role ≠ "user") →
      buildRetryRequestBody cfg b acc =
        { b with contents := some (l₁ ++ u :: (retryHistory cfg acc ++ l₂)) }) ∧
    ((∀ m ∈ b.contents.getD [], m.role ≠ "user") →
      buildRetryRequestBody cfg b acc =
        { b with contents := some (b.contents.getD [] ++ retryHistory cfg acc) }) := by
  constructor
  · intro l₁ u l₂ hc hu hl₂
    have hmap : (l₁ ++ u :: l₂).map (·.role) =
        (l₁.map (·.role)) ++ "user" :: (l₂.map (·.role)) := by
      simp [hu]
    have hidx : jsLastIndexOf ((l₁ ++ u :: l₂).map (·.role)) "user" 0 =
        some l₁.length := by
      rw [hmap, jsLastIndexOf_last "user" (l₁.map (·.role)) (l₂.map (·.role)) 0]
      · simp
      · intro a ha
        rcases List.mem_map.mp ha with ⟨m, hm, rfl⟩
        exact hl₂ m hm
    have hsplit : l₁ ++ u :: l₂ = (l₁ ++ [u]) ++ l₂ := by simp
    have hlen : (l₁ ++ [u]).length = l₁.length + 1 := by simp
    have ht : (l₁ ++ u :: l₂).take (l₁.length + 1) = l₁ ++ [u] := by
      rw [hsplit, ← hlen, List.take_left]
    have hd : (l₁ ++ u :: l₂).drop (l₁.length + 1) = l₂ := by
      rw [hsplit, ← hlen, List.drop_left]
    rw [buildRetryRequestBody]
    rw [hc]
    simp only [Option.getD_some, hidx, ht, hd]
    rw [retryHistory]
    simp
  · intro h
    have hidx : jsLastIndexOf ((b.contents.getD []).map (·.role)) "user" 0 =
        none := by
      apply jsLastIndexOf_none
      intro a ha
      rcases List.mem_map.mp ha with ⟨m, hm, rfl⟩
      exact h m hm
    rw [buildRetryRequestBody]
    simp only [hidx]
    rw [retryHistory]

/-- Closed witness for `buildRetryRequestBody_spec`: a two-message history
(user then model) gets the continuation spliced right after the user turn. -/
theorem buildRetryRequestBody_spec_witness :
    buildRetryRequestBody geminiConfigDefault
      ⟨some [⟨"user", [⟨"hi"⟩]⟩, ⟨"model", [⟨"ok"⟩]⟩], "extra"⟩ "abc" =
      { contents := some ([] ++ (⟨"user", [⟨"hi"⟩]⟩ : GemMessage) ::
          (retryHistory geminiConfigDefault "abc" ++ [⟨"model", [⟨"ok"⟩]⟩])),
        extra := "extra" } :=
  (buildRetryRequestBody_spec geminiConfigDefault
      ⟨some [⟨"user", [⟨"hi"⟩]⟩, ⟨"model", [⟨"ok"⟩]⟩], "extra"⟩ "abc").1
    [] ⟨"user", [⟨"hi"⟩]⟩ [⟨"model", [⟨"ok"⟩]⟩] rfl rfl (by decide)

/-! ### C4: language detection -/

/-- The language-detection rule as the claim words it: the first label among
zh, ja, ko, ar, ru whose block count exceeds 10% of the text length,
otherwise the diacritic fallback. -/
def detectLanguageClaim (text : String) : String :=
  match (langPatterns.map fun p => (p.1, countMatches text p.2)).find?
      (fun q => text.length < 10 * q.2) with
  | some q => q.1
  | none => diacriticScan text

/-- C4 counterexample: the code returns `en` for the all-Chinese text 你好
(shorter than 10 characters) where the claim requires `zh`, and returns `ru`
on a text whose Chinese count (4 of 30, first over the 10% threshold) is
dominated by a larger Cyrillic count, where the claim requires `zh`. -/
theorem detectLanguage_claim_counterexample :
    detectLanguage "你好" = "en" ∧ detectLanguageClaim "你好" = "zh" ∧
    detectLanguage "中中中中ббббббббббabcdefghijklmnop" = "ru" ∧
    detectLanguageClaim "中中中中ббббббббббabcdefghijklmnop" = "zh" :=
  ⟨by decide, by decide, by decide, by decide⟩

/-- The maximum of the five block counts (0 when all are 0). -/
def maxBlockCount (counts : List (String × Nat)) : Nat :=
  counts.foldr (fun p m => max p.2 m) 0

/-- C4 amended rule: texts shorter than 10 characters give `en`; otherwise
the earliest label whose block count equals the maximum of the five counts
is returned provided that maximum exceeds 10% of the length; otherwise the
gated diacritic scan (fr, else de, else es, else en). -/
def detectLanguageAmended (text : String) : String :=
  if text.length < 10 then "en"
  else
    let counts := langPatterns.map fun p => (p.1, countMatches text p.2)
    let m := maxBlockCount counts
    if text.length < 10 * m then
      ((counts.find? fun q => q.2 = m).map (·.1)).getD "en"
    else diacriticScan text

/-- Helper: the running-maximum scan computes the maximum count. -/
theorem jsMaxScan_snd (l : List (String × Nat)) (b : String × Nat) :
    (jsMaxScan l b).2 = max b.2 (maxBlockCount l) := by
  induction l generalizing b with
  | nil => simp [jsMaxScan, maxBlockCount]
  | cons p rest ih =>
      rcases p with ⟨lang, c⟩
      rw [jsMaxScan, ih]
      have hm : maxBlockCount ((lang, c) :: rest) = max c (maxBlockCount rest) := rfl
      rw [hm]
      by_cases hbc : b.2 < c <;> simp [hbc] <;> omega

/-- Helper: the scan keeps its seed when no count beats it. -/
theorem jsMaxScan_of_le (l : List (String × Nat)) (b : String × Nat)
    (h : maxBlockCount l ≤ b.2) : jsMaxScan l b = b := by
  induction l generalizing b with
  | nil => rfl
  | cons p rest ih =>
      rcases p with ⟨lang, c⟩
      have hm : maxBlockCount ((lang, c) :: rest) = max c (maxBlockCount rest) := rfl
      rw [hm] at h
      rw [jsMaxScan, if_neg (by omega), ih b (by omega)]

/-- Helper: when some count beats the seed, the scan returns the first entry
achieving the maximum count. -/
theorem jsMaxScan_find (l : List (String × Nat)) (b : String × Nat)
    (h : b.2 < maxBlockCount l) :
    l.find? (fun q => q.2 = maxBlockCount l) = some (jsMaxScan l b) := by
  induction l generalizing b with
  | nil => simp [maxBlockCount] at h
  | cons p rest ih =>
      rcases p with ⟨lang, c⟩
      have hm : maxBlockCount ((lang, c) :: rest) = max c (maxBlockCount rest) := rfl
      rw [hm] at h ⊢
      by_cases hcr : maxBlockCount rest ≤ c
      · have hcmax : max c (maxBlockCount rest) = c := by omega
        rw [hcmax] at h ⊢
        rw [List.find?_cons_of_pos _ (by simp)]
        rw [jsMaxScan, if_pos (by omega), jsMaxScan_of_le rest (lang, c) (by omega)]
      · have hcmax : max c (maxBlockCount rest) = maxBlockCount rest := by omega
        rw [hcmax] at h ⊢
        rw [List.find?_cons_of_neg _ (by simp; omega)]
        rw [jsMaxScan]
        by_cases hbc : b.2 < c
        · rw [if_pos hbc]
          exact ih (lang, c) (by omega)
        · rw [if_neg hbc]
          exact ih b (by omega)

/-- C4 (amended): `detectLanguage` agrees with the amended rule on every
text. -/
theorem detectLanguage_eq_amended (text : String) :
    detectLanguage text = detectLanguageAmended text := by
  rw [detectLanguage, detectLanguageAmended]
  by_cases h10 : text.length < 10
  · simp [h10]
  · simp only [if_neg h10]
    have hsnd := jsMaxScan_snd
      (langPatterns.map fun p => (p.1, countMatches text p.2)) ("en", 0)
    rw [Nat.zero_max] at hsnd
    rw [hsnd]
    by_cases hthr : text.length <
        10 * maxBlockCount (langPatterns.map fun p => (p.1, countMatches text p.2))
    · rw [if_pos hthr, if_pos hthr]
      have hfind := jsMaxScan_find
        (langPatterns.map fun p => (p.1, countMatches text p.2)) ("en", 0)
        (by omega)
      rw [hfind]
      rfl
    · rw [if_neg hthr, if_neg hthr]

/-! ### C2: finish-reason classification -/

/-- C2: a data line whose candidate carries a (truthy) finish reason always
ends the attempt at that line (one line processed, the rest of the stream
untouched).  With the state updated by that line's own parts: `STOP` ends the
attempt successfully (`interruption = none`, the writer-closing path) when
substantive output was seen or, failing that, when more than 100 characters
have accumulated, and otherwise marks `STOP_WITHOUT_SUFFICIENT_CONTENT`;
`MAX_TOKENS`, `TOOL_CODE`, `SAFETY` and `RECITATION` always end the attempt
successfully; every other truthy value marks `FINISH_ABNORMAL`. -/
theorem finishReason_classification (st : AttemptState) (raw : String)
    (c : GemCandidate) (rest : List SseLine) (readError : Bool) (fr : String)
    (hfr : c.finishReason = some fr) (hne : fr ≠ "") :
    (runAttemptAux st (.data raw c :: rest) readError).linesProcessed = 1 ∧
    (fr = "STOP" →
      (((applyCandidateParts st c).hasReceivedFinalAnswerContent = true ∨
          (applyCandidateParts st c).hasReceivedToolCalls = true) →
        (runAttemptAux st (.data raw c :: rest) readError).interruption = none) ∧
      ((applyCandidateParts st c).hasReceivedFinalAnswerContent = false →
        (applyCandidateParts st c).hasReceivedToolCalls = false →
        100 < (applyCandidateParts st c).accumulatedText.length →
        (runAttemptAux st (.data raw c :: rest) readError).interruption = none) ∧
      ((applyCandidateParts st c).hasReceivedFinalAnswerContent = false →
        (applyCandidateParts st c).hasReceivedToolCalls = false →
        (applyCandidateParts st c).accumulatedText.length ≤ 100 →
        (runAttemptAux st (.data raw c :: rest) readError).interruption =
          some "STOP_WITHOUT_SUFFICIENT_CONTENT")) ∧
    ((fr = "MAX_TOKENS" ∨ fr = "TOOL_CODE" ∨ fr = "SAFETY" ∨ fr = "RECITATION") →
      (runAttemptAux st (.data raw c :: rest) readError).interruption = none) ∧
    (fr ≠ "STOP" → fr ≠ "MAX_TOKENS" → fr ≠ "TOOL_CODE" → fr ≠ "SAFETY" →
      fr ≠ "RECITATION" →
      (runAttemptAux st (.data raw c :: rest) readError).interruption =
        some "FINISH_ABNORMAL") := by
  have hdone_or : processLine st (.data raw c) = .done (applyCandidateParts st c) ∨
      ∃ r, processLine st (.data raw c) =
        .interrupted (applyCandidateParts st c) r := by
    rw [processLine, hfr]
    simp only [if_neg hne]
    by_cases hstop : fr = "STOP"
    · simp only [if_pos hstop]
      by_cases h1 : ((applyCandidateParts st c).hasReceivedFinalAnswerContent
          || (applyCandidateParts st c).hasReceivedToolCalls) = true
      · simp [h1]
      · by_cases h2 : (applyCandidateParts st c).accumulatedText.length > 100 <;>
          simp [h1, h2]
    · simp only [if_neg hstop]
      by_cases h3 : (fr = "MAX_TOKENS" || fr = "TOOL_CODE" || fr = "SAFETY"
          || fr = "RECITATION") = true <;> simp [h3]
  refine ⟨?_, fun hstop => ⟨fun hsub => ?_, fun hf ht hlen => ?_, fun hf ht hlen => ?_⟩,
    fun hfour => ?_, fun h1 h2 h3 h4 h5 => ?_⟩
  · rcases hdone_or with h | ⟨r, h⟩ <;> rw [runAttemptAux, h]
  · have hpl : processLine st (.data raw c) = .done (applyCandidateParts st c) := by
      rw [processLine, hfr]
      simp only [if_neg hne, if_pos hstop]
      have hb : ((applyCandidateParts st c).hasReceivedFinalAnswerContent
          || (applyCandidateParts st c).hasReceivedToolCalls) = true := by
        rcases hsub with hs | hs <;> simp [hs]
      simp [hb]
    rw [runAttemptAux, hpl]
  · have hpl : processLine st (.data raw c) = .done (applyCandidateParts st c) := by
      rw [processLine, hfr]
      simp only [if_neg hne, if_pos hstop, hf, ht]
      simp [hlen]
    rw [runAttemptAux, hpl]
  · have hpl : processLine st (.data raw c) =
        .interrupted (applyCandidateParts st c)
          "STOP_WITHOUT_SUFFICIENT_CONTENT" := by
      rw [processLine, hfr]
      simp only [if_neg hne, if_pos hstop, hf, ht]
      simp only [Bool.or_self, Bool.false_eq_true, if_false]
      rw [if_neg (by omega)]
    rw [runAttemptAux, hpl]
  · have hnstop : fr ≠ "STOP" := by
      rcases hfour with h | h | h | h <;> simp [h]
    have hpl : processLine st (.data raw c) = .done (applyCandidateParts st c) := by
      rw [processLine, hfr]
      simp only [if_neg hne, if_neg hnstop]
      rw [if_pos (by rcases hfour with h | h | h | h <;> simp [h])]
    rw [runAttemptAux, hpl]
  · have hpl : processLine st (.data raw c) =
        .interrupted (applyCandidateParts st c) "FINISH_ABNORMAL" := by
      rw [processLine, hfr]
      simp only [if_neg hne, if_neg h1]
      rw [if_neg (by simp [h2, h3, h4, h5])]
    rw [runAttemptAux, hpl]

/-- Closed witness for `finishReason_classification`: a single `STOP` line
carrying a non-thought text part ends the attempt successfully. -/
theorem finishReason_classification_witness :
    (runAttemptAux ⟨"", false, false⟩
      [.data "data: x" ⟨some [⟨some "hi", false, false⟩], some "STOP"⟩]
      false).interruption = none :=
  ((finishReason_classification ⟨"", false, false⟩ "data: x"
      ⟨some [⟨some "hi", false, false⟩], some "STOP"⟩ [] false "STOP"
      rfl (by decide)).2.1 rfl).1 (Or.inl (by decide))

/-! ### C1 and C8: session-level lemmas -/

/-- Concatenation of a list of strings, in order. -/
def strJoin (l : List String) : String := l.foldr (· ++ ·) ""

theorem strJoin_append (l₁ l₂ : List String) :
    strJoin (l₁ ++ l₂) = strJoin l₁ ++ strJoin l₂ := by
  induction l₁ with
  | nil => simp [strJoin]
  | cons a l ih =>
      show a ++ strJoin (l ++ l₂) = (a ++ strJoin l) ++ strJoin l₂
      rw [ih, String.append_assoc]

/-- Helper: one part extends the accumulated text by its text fragment. -/
theorem applyPart_text (st : AttemptState) (p : GemPart) :
    (applyPart st p).accumulatedText =
      st.accumulatedText ++ (p.text.getD "") := by
  rw [applyPart]
  cases p.text with
  | some t => rfl
  | none =>
      show (if p.hasToolCall then _ else st).accumulatedText = _
      split <;> simp [String.append_empty]

/-- Helper: folding `applyPart` appends exactly the text fragments of the
parts. -/
theorem foldl_applyPart_text (ps : List GemPart) :
    ∀ st : AttemptState, (ps.foldl applyPart st).accumulatedText =
      st.accumulatedText ++ strJoin (ps.filterMap (·.text)) := by
  induction ps with
  | nil => intro st; simp [strJoin, String.append_empty]
  | cons p rest ih =>
      intro st
      rw [List.foldl_cons, ih (applyPart st p), applyPart_text]
      cases hp : p.text with
      | some t =>
          simp only [List.filterMap_cons, hp, Option.getD_some]
          rw [show strJoin (t :: rest.filterMap (·.text)) =
            t ++ strJoin (rest.filterMap (·.text)) from rfl]
          rw [String.append_assoc]
      | none =>
          simp only [List.filterMap_cons, hp, Option.getD_none]
          rw [String.append_empty]

/-- Helper: folding the parts of a candidate appends exactly its text
fragments. -/
theorem applyCandidateParts_text (st : AttemptState) (c : GemCandidate) :
    (applyCandidateParts st c).accumulatedText =
      st.accumulatedText ++ strJoin (candTexts c) := by
  rw [applyCandidateParts, candTexts]
  cases c.parts with
  | none => simp [strJoin, String.append_empty]
  | some ps => exact foldl_applyPart_text ps st

/-- Helper: interpreting one line extends the state text by the line's text
fragments, whatever the step outcome. -/
theorem processLine_state (st : AttemptState) (l : SseLine) :
    (processLine st l).state.accumulatedText =
      st.accumulatedText ++ strJoin (lineTexts l) := by
  cases l with
  | other r =>
      show st.accumulatedText = st.accumulatedText ++ strJoin []
      simp [strJoin, String.append_empty]
  | data r c =>
      have hacc := applyCandidateParts_text st c
      rw [processLine]
      rcases hfr : c.finishReason with _ | fr
      · simpa [StepResult.state, lineTexts] using hacc
      · simp only []
        split
        · simpa [StepResult.state, lineTexts] using hacc
        · split
          · split
            · simpa [StepResult.state, lineTexts] using hacc
            · split
              · simpa [StepResult.state, lineTexts] using hacc
              · simpa [StepResult.state, lineTexts] using hacc
          · split
            · simpa [StepResult.state, lineTexts] using hacc
            · simpa [StepResult.state, lineTexts] using hacc

/-- Helper: an attempt extends the accumulated text by exactly the text
fragments it reports, and writes exactly the processed prefix of its lines,
each with a blank line appended. -/
theorem runAttemptAux_spec (ls : List SseLine) :
    ∀ (st : AttemptState) (err : Bool),
      (runAttemptAux st ls err).state.accumulatedText =
        st.accumulatedText ++ strJoin (runAttemptAux st ls err).texts ∧
      (runAttemptAux st ls err).written =
        ((ls.take (runAttemptAux st ls err).linesProcessed).map
          fun l => l.raw ++ "\n\n") := by
  induction ls with
  | nil =>
      intro st err
      rw [runAttemptAux]
      cases err <;> simp [strJoin, String.append_empty]
  | cons l rest ih =>
      intro st err
      have hstate := processLine_state st l
      cases hpl : processLine st l with
      | next st1 =>
          rw [hpl] at hstate
          simp only [StepResult.state] at hstate
          rcases ih st1 err with ⟨iha, ihw⟩
          rw [runAttemptAux, hpl]
          constructor
          · show (runAttemptAux st1 rest err).state.accumulatedText =
              st.accumulatedText ++
                strJoin (lineTexts l ++ (runAttemptAux st1 rest err).texts)
            rw [iha, hstate, strJoin_append, String.append_assoc]
          · show (l.raw ++ "\n\n") :: (runAttemptAux st1 rest err).written =
              ((l :: rest).take
                ((runAttemptAux st1 rest err).linesProcessed + 1)).map
                fun l => l.raw ++ "\n\n"
            rw [List.take_succ_cons, List.map_cons, ihw]
      | done st1 =>
          rw [hpl] at hstate
          simp only [StepResult.state] at hstate
          rw [runAttemptAux, hpl]
          exact ⟨hstate, rfl⟩
      | interrupted st1 reason =>
          rw [hpl] at hstate
          simp only [StepResult.state] at hstate
          rw [runAttemptAux, hpl]
          exact ⟨hstate, rfl⟩

/-- Helper: a whole session accumulates the text fragments of all its
attempts onto the initial accumulated text. -/
theorem sessionLoop_finalText (cfg : GeminiConfig) :
    ∀ (s : SseStream) (count netRetry : Nat) (acc : String)
      (retries : List RetryOutcome),
      (sessionLoop cfg s count netRetry acc retries).finalText =
        acc ++ strJoin
          (((sessionLoop cfg s count netRetry acc retries).attempts.map
            (·.texts)).flatten) := by
  have hrun : ∀ (acc : String) (s : SseStream),
      (runAttempt acc s).state.accumulatedText =
        acc ++ strJoin (runAttempt acc s).texts := by
    intro acc s
    exact (runAttemptAux_spec s.lines ⟨acc, false, false⟩ s.readError).1
  intro s count netRetry acc retries
  induction s, count, netRetry, acc, retries using sessionLoop.induct cfg with
  | case1 s count net acc rs r hr =>
      have hr1 : (runAttempt acc s).interruption = none := hr
      rw [sessionLoop]
      simp only [hr1]
      simp [hrun acc s]
  | case2 s count net acc rs r fr hr hc =>
      have hr1 : (runAttempt acc s).interruption = some fr := hr
      rw [sessionLoop]
      simp only [hr1, dif_pos hc]
      simp [hrun acc s]
  | case3 s count net acc r acc1 fr hr hc s1 rest ih =>
      have hr1 : (runAttempt acc s).interruption = some fr := hr
      have ih1 : (sessionLoop cfg s1 (count + 1) 0
          (runAttempt acc s).state.accumulatedText rest).finalText =
          (runAttempt acc s).state.accumulatedText ++ strJoin
            (((sessionLoop cfg s1 (count + 1) 0
              (runAttempt acc s).state.accumulatedText rest).attempts.map
                (·.texts)).flatten) := ih
      rw [sessionLoop]
      simp only [hr1, dif_neg hc]
      simp only [List.map_cons, List.flatten_cons, strJoin_append]
      rw [ih1, hrun acc s, String.append_assoc]
  | case4 s count net acc r fr hr hc errText tail =>
      have hr1 : (runAttempt acc s).interruption = some fr := hr
      rw [sessionLoop]
      simp only [hr1, dif_neg hc]
      simp [hrun acc s]
  | case5 s count net acc r fr hr hc msg rest hnet =>
      have hr1 : (runAttempt acc s).interruption = some fr := hr
      rw [sessionLoop]
      simp only [hr1, dif_neg hc, if_pos hnet]
      simp [hrun acc s]
  | case6 s count net acc r acc1 fr hr hc msg rest hnet ih =>
      have hr1 : (runAttempt acc s).interruption = some fr := hr
      have ih1 : (sessionLoop cfg ⟨[], false⟩ (count + 1) (net + 1)
          (runAttempt acc s).state.accumulatedText rest).finalText =
          (runAttempt acc s).state.accumulatedText ++ strJoin
            (((sessionLoop cfg ⟨[], false⟩ (count + 1) (net + 1)
              (runAttempt acc s).state.accumulatedText rest).attempts.map
                (·.texts)).flatten) := ih
      rw [sessionLoop]
      simp only [hr1, dif_neg hc, if_neg hnet]
      simp only [List.map_cons, List.flatten_cons, strJoin_append]
      rw [ih1, hrun acc s, String.append_assoc]
  | case7 s count net acc r fr hr hc hnet =>
      have hr1 : (runAttempt acc s).interruption = some fr := hr
      rw [sessionLoop]
      simp only [hr1, dif_neg hc, if_pos hnet]
      simp [hrun acc s]
  | case8 s count net acc r acc1 fr hr hc hnet ih =>
      have hr1 : (runAttempt acc s).interruption = some fr := hr
      have ih1 : (sessionLoop cfg ⟨[], false⟩ (count + 1) (net + 1)
          (runAttempt acc s).state.accumulatedText []).finalText =
          (runAttempt acc s).state.accumulatedText ++ strJoin
            (((sessionLoop cfg ⟨[], false⟩ (count + 1) (net + 1)
              (runAttempt acc s).state.accumulatedText []).attempts.map
                (·.texts)).flatten) := ih
      rw [sessionLoop]
      simp only [hr1, dif_neg hc, if_neg hnet]
      simp only [List.map_cons, List.flatten_cons, strJoin_append]
      rw [ih1, hrun acc s, String.append_assoc]

/-- Helper: entering the loop with `consecutiveRetryCount = count` leaves at
most `max_consecutive_retries + 1 - count` further attempts. -/
theorem sessionLoop_attempts_le (cfg : GeminiConfig) :
    ∀ (s : SseStream) (count netRetry : Nat) (acc : String)
      (retries : List RetryOutcome),
      count ≤ cfg.max_consecutive_retries →
      (sessionLoop cfg s count netRetry acc retries).attempts.length ≤
        cfg.max_consecutive_retries + 1 - count := by
  intro s count netRetry acc retries
  induction s, count, netRetry, acc, retries using sessionLoop.induct cfg with
  | case1 s count net acc rs r hr =>
      intro hcount
      have hr1 : (runAttempt acc s).interruption = none := hr
      rw [sessionLoop]
      simp only [hr1, List.length_cons, List.length_nil]
      omega
  | case2 s count net acc rs r fr hr hc =>
      intro hcount
      have hr1 : (runAttempt acc s).interruption = some fr := hr
      rw [sessionLoop]
      simp only [hr1, dif_pos hc, List.length_cons, List.length_nil]
      omega
  | case3 s count net acc r acc1 fr hr hc s1 rest ih =>
      intro hcount
      have hr1 : (runAttempt acc s).interruption = some fr := hr
      have ih1 : (sessionLoop cfg s1 (count + 1) 0
          (runAttempt acc s).state.accumulatedText rest).attempts.length ≤
          cfg.max_consecutive_retries + 1 - (count + 1) := ih (by omega)
      rw [sessionLoop]
      simp only [hr1, dif_neg hc, List.length_cons]
      omega
  | case4 s count net acc r fr hr hc errText tail =>
      intro hcount
      have hr1 : (runAttempt acc s).interruption = some fr := hr
      rw [sessionLoop]
      simp only [hr1, dif_neg hc, List.length_cons, List.length_nil]
      omega
  | case5 s count net acc r fr hr hc msg rest hnet =>
      intro hcount
      have hr1 : (runAttempt acc s).interruption = some fr := hr
      rw [sessionLoop]
      simp only [hr1, dif_neg hc, if_pos hnet, List.length_cons, List.length_nil]
      omega
  | case6 s count net acc r acc1 fr hr hc msg rest hnet ih =>
      intro hcount
      have hr1 : (runAttempt acc s).interruption = some fr := hr
      have ih1 : (sessionLoop cfg ⟨[], false⟩ (count + 1) (net + 1)
          (runAttempt acc s).state.accumulatedText rest).attempts.length ≤
          cfg.max_consecutive_retries + 1 - (count + 1) := ih (by omega)
      rw [sessionLoop]
      simp only [hr1, dif_neg hc, if_neg hnet, List.length_cons]
      omega
  | case7 s count net acc r fr hr hc hnet =>
      intro hcount
      have hr1 : (runAttempt acc s).interruption = some fr := hr
      rw [sessionLoop]
      simp only [hr1, dif_neg hc, if_pos hnet, List.length_cons, List.length_nil]
      omega
  | case8 s count net acc r acc1 fr hr hc hnet ih =>
      intro hcount
      have hr1 : (runAttempt acc s).interruption = some fr := hr
      have ih1 : (sessionLoop cfg ⟨[], false⟩ (count + 1) (net + 1)
          (runAttempt acc s).state.accumulatedText []).attempts.length ≤
          cfg.max_consecutive_retries + 1 - (count + 1) := ih (by omega)
      rw [sessionLoop]
      simp only [hr1, dif_neg hc, if_neg hnet, List.length_cons]
      omega

/-- Helper: an attempt interrupted while `consecutiveRetryCount` has reached
the limit forces the 504 event to be the final downstream write, with the
writer closed. -/
theorem sessionLoop_504 (cfg : GeminiConfig) :
    ∀ (s : SseStream) (count netRetry : Nat) (acc : String)
      (retries : List RetryOutcome),
      ∀ rec ∈ (sessionLoop cfg s count netRetry acc retries).attempts,
        cfg.max_consecutive_retries ≤ rec.startCount →
        ∀ reason, rec.interruption = some reason →
        (sessionLoop cfg s count netRetry acc retries).written.getLast? =
          some (sse504Event cfg reason) ∧
        (sessionLoop cfg s count netRetry acc retries).closed = true := by
  intro s count netRetry acc retries
  induction s, count, netRetry, acc, retries using sessionLoop.induct cfg with
  | case1 s count net acc rs r hr =>
      have hr1 : (runAttempt acc s).interruption = none := hr
      rw [sessionLoop]
      simp only [hr1]
      intro rec hmem hge reason hreason
      rw [List.mem_singleton] at hmem
      subst hmem
      simp at hreason
  | case2 s count net acc rs r fr hr hc =>
      have hr1 : (runAttempt acc s).interruption = some fr := hr
      rw [sessionLoop]
      simp only [hr1, dif_pos hc]
      intro rec hmem hge reason hreason
      rw [List.mem_singleton] at hmem
      subst hmem
      simp only [Option.some.injEq] at hreason
      subst hreason
      exact ⟨List.getLast?_concat .., trivial⟩
  | case3 s count net acc r acc1 fr hr hc s1 rest ih =>
      have hr1 : (runAttempt acc s).interruption = some fr := hr
      rw [sessionLoop]
      simp only [hr1, dif_neg hc]
      intro rec hmem hge reason hreason
      rw [List.mem_cons] at hmem
      rcases hmem with hmem | hmem
      · subst hmem
        exact absurd hge hc
      · rcases ih rec hmem hge reason hreason with ⟨hl, hcl⟩
        refine ⟨?_, hcl⟩
        rw [List.getLast?_append, hl]
        rfl
  | case4 s count net acc r fr hr hc errText tail =>
      have hr1 : (runAttempt acc s).interruption = some fr := hr
      rw [sessionLoop]
      simp only [hr1, dif_neg hc]
      intro rec hmem hge reason hreason
      rw [List.mem_singleton] at hmem
      subst hmem
      exact absurd hge hc
  | case5 s count net acc r fr hr hc msg rest hnet =>
      have hr1 : (runAttempt acc s).interruption = some fr := hr
      rw [sessionLoop]
      simp only [hr1, dif_neg hc, if_pos hnet]
      intro rec hmem hge reason hreason
      rw [List.mem_singleton] at hmem
      subst hmem
      exact absurd hge hc
  | case6 s count net acc r acc1 fr hr hc msg rest hnet ih =>
      have hr1 : (runAttempt acc s).interruption = some fr := hr
      rw [sessionLoop]
      simp only [hr1, dif_neg hc, if_neg hnet]
      intro rec hmem hge reason hreason
      rw [List.mem_cons] at hmem
      rcases hmem with hmem | hmem
      · subst hmem
        exact absurd hge hc
      · rcases ih rec hmem hge reason hreason with ⟨hl, hcl⟩
        refine ⟨?_, hcl⟩
        rw [List.getLast?_append, hl]
        rfl
  | case7 s count net acc r fr hr hc hnet =>
      have hr1 : (runAttempt acc s).interruption = some fr := hr
      rw [sessionLoop]
      simp only [hr1, dif_neg hc, if_pos hnet]
      intro rec hmem hge reason hreason
      rw [List.mem_singleton] at hmem
      subst hmem
      exact absurd hge hc
  | case8 s count net acc r acc1 fr hr hc hnet ih =>
      have hr1 : (runAttempt acc s).interruption = some fr := hr
      rw [sessionLoop]
      simp only [hr1, dif_neg hc, if_neg hnet]
      intro rec hmem hge reason hreason
      rw [List.mem_cons] at hmem
      rcases hmem with hmem | hmem
      · subst hmem
        exact absurd hge hc
      · rcases ih rec hmem hge reason hreason with ⟨hl, hcl⟩
        refine ⟨?_, hcl⟩
        rw [List.getLast?_append, hl]
        rfl

/-- C1: every session runs at most `max_consecutive_retries + 1` inner-loop
attempts, and whenever an attempt is interrupted with
`consecutiveRetryCount` already at the limit, the synthesised 504
`DEADLINE_EXCEEDED` SSE error event is the final downstream write and the
writer is closed. -/
theorem retry_limit_504 (cfg : GeminiConfig) (initial : SseStream)
    (retries : List RetryOutcome) :
    (processStreamAndRetryInternally cfg initial retries).attempts.length ≤
      cfg.max_consecutive_retries + 1 ∧
    ∀ rec ∈ (processStreamAndRetryInternally cfg initial retries).attempts,
      cfg.max_consecutive_retries ≤ rec.startCount →
      ∀ reason, rec.interruption = some reason →
        (processStreamAndRetryInternally cfg initial retries).written.getLast? =
          some (sse504Event cfg reason) ∧
        (processStreamAndRetryInternally cfg initial retries).closed = true := by
  constructor
  · have := sessionLoop_attempts_le cfg initial 0 0 "" retries (Nat.zero_le _)
    simpa using this
  · intro rec hmem hge reason hreason
    exact sessionLoop_504 cfg initial 0 0 "" retries rec hmem hge reason hreason

/-- Closed witness for `retry_limit_504`: with a retry budget of 0, a stream
that drops immediately yields the 504 event as final write and a closed
writer. -/
theorem retry_limit_504_witness :
    (processStreamAndRetryInternally ⟨0, 3, []⟩ ⟨[], false⟩ []).written.getLast? =
      some (sse504Event ⟨0, 3, []⟩ "DROP") ∧
    (processStreamAndRetryInternally ⟨0, 3, []⟩ ⟨[], false⟩ []).closed = true :=
  (retry_limit_504 ⟨0, 3, []⟩ ⟨[], false⟩ []).2 ⟨0, some "DROP", []⟩
    (by rw [processStreamAndRetryInternally, sessionLoop]; decide)
    (by decide) "DROP" (by decide)

/-- C8: an attempt extends `accumulatedText` by exactly the text fragments
it observed (so the text is never reset when a retry begins), and after the
session the final accumulated text is the concatenation, in arrival order,
of every text fragment observed across attempts 0..N. -/
theorem accumulated_text_concat :
    (∀ (acc : String) (s : SseStream),
      (runAttempt acc s).state.accumulatedText =
        acc ++ strJoin (runAttempt acc s).texts) ∧
    (∀ (cfg : GeminiConfig) (initial : SseStream)
      (retries : List RetryOutcome),
      (processStreamAndRetryInternally cfg initial retries).finalText =
        strJoin
          (((processStreamAndRetryInternally cfg initial retries).attempts.map
            (·.texts)).flatten)) := by
  constructor
  · intro acc s
    exact (runAttemptAux_spec s.lines ⟨acc, false, false⟩ s.readError).1
  · intro cfg initial retries
    have := sessionLoop_finalText cfg initial 0 0 "" retries
    simpa [String.empty_append] using this

/-! ### C10: the SSE iterator is chunking-invariant -/

theorem runSplit_append (s : SplitState) (a b : List Char) :
    runSplit s (a ++ b) = runSplit (runSplit s a) b :=
  List.foldl_append ..

/-- Helper: one scanner step only ever appends to the completed lines. -/
theorem stepCh_done (d : List (List Char)) (cur : List Char) (p : Bool)
    (c : Char) :
    stepCh ⟨d, cur, p⟩ c =
      ⟨d ++ (stepCh ⟨[], cur, p⟩ c).done, (stepCh ⟨[], cur, p⟩ c).cur,
        (stepCh ⟨[], cur, p⟩ c).pendCR⟩ := by
  rw [stepCh, stepCh]
  split_ifs <;> simp

/-- Helper: a scanner run only ever appends to the completed lines. -/
theorem runSplit_done (cs : List Char) :
    ∀ (d : List (List Char)) (cur : List Char) (p : Bool),
      runSplit ⟨d, cur, p⟩ cs =
        ⟨d ++ (runSplit ⟨[], cur, p⟩ cs).done, (runSplit ⟨[], cur, p⟩ cs).cur,
          (runSplit ⟨[], cur, p⟩ cs).pendCR⟩ := by
  induction cs with
  | nil => intro d cur p; simp [runSplit]
  | cons c cs ih =>
      intro d cur p
      show runSplit (stepCh ⟨d, cur, p⟩ c) cs = _
      rcases hst : stepCh ⟨[], cur, p⟩ c with ⟨d1, cur1, p1⟩
      rw [stepCh_done, hst]
      rw [ih (d ++ d1) cur1 p1]
      have h2 : runSplit ⟨[], cur, p⟩ (c :: cs) = runSplit ⟨d1, cur1, p1⟩ cs := by
        show runSplit (stepCh ⟨[], cur, p⟩ c) cs = _
        rw [hst]
      rw [h2, ih d1 cur1 p1]
      simp [List.append_assoc]

/-- Invariant of reachable scanner states: the current fragment holds no
`\n`, and its most recent character is `\r` only while a `\r` is pending. -/
def SplitInv (s : SplitState) : Prop :=
  '\n' ∉ s.cur ∧ (s.pendCR = false → s.cur.head? ≠ some '\r')

theorem stepCh_inv (s : SplitState) (c : Char) (h : SplitInv s) :
    SplitInv (stepCh s c) := by
  rcases s with ⟨d, cur, p⟩
  rcases h with ⟨h1, h2⟩
  rw [stepCh]
  split_ifs with hp hn hr hn hr <;>
    refine ⟨?_, ?_⟩ <;>
      simp_all [SplitInv, eq_comm]

theorem runSplit_inv (cs : List Char) :
    ∀ s : SplitState, SplitInv s → SplitInv (runSplit s cs) := by
  induction cs with
  | nil => intro s h; exact h
  | cons c cs ih =>
      intro s h
      exact ih (stepCh s c) (stepCh_inv s c h)

/-- Helper: rescanning a delimiter-free fragment reproduces the scanner
state it came from. -/
theorem runSplit_rev (m : List Char) :
    '\n' ∉ m →
      runSplit initSplit m.reverse =
        if m.head? = some '\r' then ⟨[], m.tail, true⟩ else ⟨[], m, false⟩ := by
  induction m with
  | nil => intro _; simp [runSplit, initSplit]
  | cons x m ih =>
      intro hm
      have hx : x ≠ '\n' := fun hx => hm (hx ▸ List.mem_cons_self x m)
      have hm' : '\n' ∉ m := fun hmem => hm (List.mem_cons_of_mem x hmem)
      rw [List.reverse_cons, runSplit_append, ih hm']
      cases m with
      | nil =>
          simp only [List.head?_nil, reduceCtorEq, if_false]
          show stepCh ⟨[], [], false⟩ x = _
          rw [stepCh]
          simp only [Bool.false_eq_true, if_false, if_neg hx]
          by_cases hr : x = '\r' <;> simp [hr]
      | cons y t =>
          by_cases hy : y = '\r'
          · subst hy
            simp only [List.head?_cons, Option.some.injEq, if_pos rfl,
              List.tail_cons]
            show stepCh ⟨[], t, true⟩ x = _
            rw [stepCh]
            simp only [if_neg hx]
            by_cases hr : x = '\r' <;> simp [hr]
          · simp only [List.head?_cons, Option.some.injEq, if_neg hy]
            show stepCh ⟨[], y :: t, false⟩ x = _
            rw [stepCh]
            simp only [Bool.false_eq_true, if_false, if_neg hx]
            by_cases hr : x = '\r' <;> simp [hr]

/-- Helper: rescanning the buffered final fragment restores the state. -/
theorem runSplit_finalFrag (cur : List Char) (p : Bool)
    (h : SplitInv ⟨[], cur, p⟩) :
    runSplit initSplit (finalFrag ⟨[], cur, p⟩) = ⟨[], cur, p⟩ := by
  rcases h with ⟨h1, h2⟩
  cases p with
  | true =>
      have hf : finalFrag ⟨[], cur, true⟩ = ('\r' :: cur).reverse := by
        simp [finalFrag]
      rw [hf, runSplit_rev ('\r' :: cur) (by simp_all)]
      simp
  | false =>
      have hf : finalFrag ⟨[], cur, false⟩ = cur.reverse := by
        simp [finalFrag]
      rw [hf, runSplit_rev cur h1, if_neg (h2 rfl)]

/-- Helper: the buffered iteration over any chunk sequence equals the
whitespace filter of the one-shot split, relative to a reachable scanner
state. -/
theorem sseLineIteratorAux_spec (chunks : List (List Char)) :
    ∀ (cur : List Char) (p : Bool), SplitInv ⟨[], cur, p⟩ →
      sseLineIteratorAux chunks (finalFrag ⟨[], cur, p⟩) =
        ((runSplit ⟨[], cur, p⟩ chunks.flatten).done ++
          [finalFrag (runSplit ⟨[], cur, p⟩ chunks.flatten)]).filter
          lineNonBlank := by
  induction chunks with
  | nil =>
      intro cur p hinv
      rw [sseLineIteratorAux]
      show _ = ((⟨[], cur, p⟩ : SplitState).done ++
        [finalFrag ⟨[], cur, p⟩]).filter lineNonBlank
      simp only [List.nil_append, List.filter_cons, List.filter_nil]
  | cons ch rest ih =>
      intro cur p hinv
      rw [sseLineIteratorAux]
      have h1 : runSplit initSplit (finalFrag ⟨[], cur, p⟩ ++ ch) =
          runSplit ⟨[], cur, p⟩ ch := by
        rw [runSplit_append, runSplit_finalFrag cur p hinv]
      have hsplit : splitLines (finalFrag ⟨[], cur, p⟩ ++ ch) =
          (runSplit ⟨[], cur, p⟩ ch).done ++
            [finalFrag (runSplit ⟨[], cur, p⟩ ch)] := by
        rw [splitLines, h1]
      rw [hsplit]
      rw [List.dropLast_concat, List.getLast?_concat]
      simp only [Option.getD_some]
      have hff : finalFrag (runSplit ⟨[], cur, p⟩ ch) =
          finalFrag ⟨[], (runSplit ⟨[], cur, p⟩ ch).cur,
            (runSplit ⟨[], cur, p⟩ ch).pendCR⟩ := rfl
      have hinv1 : SplitInv ⟨[], (runSplit ⟨[], cur, p⟩ ch).cur,
          (runSplit ⟨[], cur, p⟩ ch).pendCR⟩ :=
        runSplit_inv ch ⟨[], cur, p⟩ hinv
      rw [hff, ih _ _ hinv1]
      have h2 : runSplit ⟨[], cur, p⟩ ((ch :: rest).flatten) =
          ⟨(runSplit ⟨[], cur, p⟩ ch).done ++
            (runSplit ⟨[], (runSplit ⟨[], cur, p⟩ ch).cur,
              (runSplit ⟨[], cur, p⟩ ch).pendCR⟩ rest.flatten).done,
           (runSplit ⟨[], (runSplit ⟨[], cur, p⟩ ch).cur,
              (runSplit ⟨[], cur, p⟩ ch).pendCR⟩ rest.flatten).cur,
           (runSplit ⟨[], (runSplit ⟨[], cur, p⟩ ch).cur,
              (runSplit ⟨[], cur, p⟩ ch).pendCR⟩ rest.flatten).pendCR⟩ := by
        show runSplit ⟨[], cur, p⟩ (ch ++ rest.flatten) = _
        rw [runSplit_append]
        exact runSplit_done rest.flatten (runSplit ⟨[], cur, p⟩ ch).done
          (runSplit ⟨[], cur, p⟩ ch).cur (runSplit ⟨[], cur, p⟩ ch).pendCR
      rw [h2]
      simp [List.filter_append, finalFrag]

/-- C10: the SSE line iterator yields, for every chunking of the input,
exactly the segments of the one-shot `\r?\n` split of the concatenated
input that contain a non-whitespace character, in order (blank separator
lines are never yielded); and the inner loop writes each yielded line it
processes downstream with exactly `"\n\n"` appended. -/
theorem sse_iterator_normalization :
    (∀ chunks : List (List Char),
      sseLineIterator chunks =
        (splitLines chunks.flatten).filter lineNonBlank) ∧
    (∀ (st : AttemptState) (ls : List SseLine) (err : Bool),
      (runAttemptAux st ls err).written =
        ((ls.take (runAttemptAux st ls err).linesProcessed).map
          fun l => l.raw ++ "\n\n")) := by
  constructor
  · intro chunks
    have h0 : SplitInv ⟨[], [], false⟩ := ⟨by simp, by simp⟩
    have := sseLineIteratorAux_spec chunks [] false h0
    rw [show finalFrag ⟨[], [], false⟩ = [] from rfl] at this
    exact this
  · intro st ls err
    exact (runAttemptAux_spec ls st err).2

end LLMProxy
